import Mathlib

/-!
Verification of the corpus ingestion, vocabulary/tensorization, lemma-script
labeling and subword-alignment pipeline of
`morphological_tagging/data/corpus.py`.

The Python source is shallowly embedded: strings are `String` (Python
operates on code points, as does `List Char`), tensors are nested `List Nat`
values, and every Python failure point (tuple-unpacking `ValueError`,
`re.search` returning `None`, list `IndexError`, `torch.cat` on an empty
list, `torch.tensor` on a non-numeric default) is an explicit `PyErr`
constructor named after the specification's error taxonomy.
-/

deriving instance DecidableEq for Except

namespace MorphTag

/-- Error taxonomy of the pipeline.  Each constructor corresponds to a
concrete Python failure point:
* `formatError` — tuple unpacking of a token row with field count ≠ 10 in
  `Tree.add` (a `ValueError` in CPython);
* `alignmentError` — `re.search` returning `None` in `add_context_embs`
  (an `AttributeError` on `None.span()` in CPython);
* `indexError` — `spans[index]` out of range in the correspondence loop;
* `typeError` — `morph_tag_vocab.get(tag, '_')` falling back to the string
  default inside `torch.tensor(..., dtype=torch.long)`, or `d.text` being
  `None` when sliced;
* `valueError` — `torch.cat` applied to an empty list of tensors. -/
inductive PyErr where
  | formatError
  | alignmentError
  | indexError
  | typeError
  | valueError
deriving DecidableEq, Repr

/-! ### Character and string helpers (code-point semantics, as in Python) -/

/-- Lexicographic comparison of char lists by code point, mirroring Python
string `<=`. -/
def charListLe : List Char → List Char → Bool
  | [], _ => true
  | _ :: _, [] => false
  | a :: as, b :: bs =>
    if a.toNat < b.toNat then true
    else if b.toNat < a.toNat then false
    else charListLe as bs

/-- Python string `a <= b` (code-point lexicographic). -/
def strLeB (a b : String) : Bool := charListLe a.data b.data

/-- Whether `pat` is a leading segment of `s`. -/
def leadsWith : List Char → List Char → Bool
  | [], _ => true
  | _ :: _, [] => false
  | a :: as, b :: bs => a = b && leadsWith as bs

/-- Position of the leftmost occurrence of `pat` in `s`, mirroring
`re.search(re.escape(pat), s)` on a literal pattern. -/
def firstOccur (pat : List Char) : List Char → Option Nat
  | [] => if leadsWith pat [] then some 0 else none
  | c :: rest =>
    if leadsWith pat (c :: rest) then some 0
    else (firstOccur pat rest).map (· + 1)

/-- Python substring test `pat in s`. -/
def containsSub (pat s : String) : Bool := (firstOccur pat.data s.data).isSome

/-- Python slice `s[n:]` (by code point). -/
def strDrop (s : String) (n : Nat) : String := String.mk (s.data.drop n)

/-- Splitting worker; `acc` is the current (reversed) field. -/
def splitCharAux (sep : Char) : List Char → List Char → List (List Char)
  | [], acc => [acc.reverse]
  | c :: cs, acc =>
    if c = sep then acc.reverse :: splitCharAux sep cs []
    else splitCharAux sep cs (c :: acc)

/-- Python `s.split(sep)` for a single-character separator (also the
behaviour of `str.rsplit(sep)` with no maxsplit, used for tag fields). -/
def splitOnCharStr (sep : Char) (s : String) : List String :=
  (splitCharAux sep s.data []).map String.mk

/-- First position of `x` in a list of strings (`None` when absent). -/
def posOf (x : String) : List String → Option Nat
  | [] => none
  | y :: l => if y = x then some 0 else (posOf x l).map (· + 1)

/-! ### Data model: `Tree` and `Document` -/

/-- One sentence's parallel annotation lists (class `Tree` in the source). -/
structure Tree where
  raw : List (String × String × String) := []
  tokens : List String := []
  lemmas : List String := []
  morph_tags : List (List String) := []
deriving DecidableEq, Repr

def Tree.empty : Tree := {}

/-- `Tree.add`: unpack a 10-field row `(index, form, lemma, _, _, tags,
_, _, _, _)` and append to the four parallel lists.  A row whose length is
not 10 fails tuple unpacking (`formatError`); nothing is mutated in that
case. -/
def Tree.add (t : Tree) (branch : List String) : Except PyErr Tree :=
  match branch with
  | [_, word_form, lem, _, _, mtags, _, _, _, _] =>
    .ok { raw := t.raw ++ [(word_form, lem, mtags)]
          tokens := t.tokens ++ [word_form]
          lemmas := t.lemmas ++ [lem]
          morph_tags := t.morph_tags ++ [splitOnCharStr ';' mtags] }
  | _ => .error .formatError

/-- One annotated sentence (class `Document`).  The `*_tensor` and
`context_corr` fields model the derived attributes attached in place by the
enrichment passes (`set_tensors`, `set_lemma_tags`,
`set_context_embeddings`); the numeric contextual vectors themselves are
external collaborator output and are not modelled — `context_corr` holds
the token/sub-word correspondence the pass computes. -/
structure Document where
  sent_id : Option String := none
  text : Option String := none
  tree : Tree := {}
  chars_tensor : Option (List (List Nat)) := none
  tokens_tensor : Option (List Nat) := none
  morph_tags_tensor : Option (List (List Nat)) := none
  lemma_tags_tensor : Option (List Nat) := none
  context_corr : Option (List Nat) := none
deriving DecidableEq, Repr

def Document.empty : Document := {}

/-! ### The treebank parser (`DocumentCorpus.parse_tree_file` scan) -/

/-- The parser's accumulator: documents emitted so far plus the current
document being built. -/
structure ParseState where
  docs : List Document
  cur : Document
deriving DecidableEq, Repr

/-- The row the `csv.reader` with tab delimiter yields for one line: an
empty line gives an empty row, any other line its tab-separated fields.
(The `quotechar="␀"` of the source makes quoting inert for ordinary
input, so plain splitting is faithful.) -/
def rowOfLine (line : String) : List String :=
  if line = "" then [] else splitOnCharStr '\t' line

/-- One iteration of the `for i, row in enumerate(conllu_data)` loop. -/
def parseStep (st : ParseState) (row : List String) : Except PyErr ParseState :=
  match row with
  | [] => .ok ⟨st.docs ++ [st.cur], Document.empty⟩
  | r0 :: rest =>
    if containsSub "# sent_id = " r0 then
      .ok ⟨st.docs, { st.cur with sent_id := some (strDrop r0 12) }⟩
    else if containsSub "# text = " r0 then
      .ok ⟨st.docs, { st.cur with text := some (strDrop r0 9) }⟩
    else if rest.length ≥ 1 then
      if containsSub "." r0 then .ok st
      else (st.cur.tree.add (r0 :: rest)).map
        fun t => ⟨st.docs, { st.cur with tree := t }⟩
    else .ok st

/-- The scan over the file's lines, from a given accumulator state. -/
def parseLinesFrom (st : ParseState) : List String → Except PyErr ParseState
  | [] => .ok st
  | l :: ls => do
    let st' ← parseStep st (rowOfLine l)
    parseLinesFrom st' ls

/-- The document list the scan of `parse_tree_file` produces on a fresh
state: all emitted documents plus the final flush of the in-progress
document. -/
def parseDocs (lines : List String) : Except PyErr (List Document) :=
  (parseLinesFrom ⟨[], Document.empty⟩ lines).map fun st => st.docs ++ [st.cur]

/-! ### Counters and stable sorting

`collections.Counter` preserves the insertion order of first occurrences;
it is embedded as an association list.  Python's `sorted` is a stable sort;
since any two stable sorts with respect to the same total preorder agree,
it is embedded as a stable insertion sort. -/

/-- `Counter[s] += 1`: increment in place, or append a fresh entry. -/
def bump : List (String × Nat) → String → List (String × Nat)
  | [], s => [(s, 1)]
  | (k, n) :: t, s => if k = s then (k, n + 1) :: t else (k, n) :: bump t s

/-- `Counter(items)`: fold `bump` over the items, first-seen order. -/
def countList (items : List String) : List (String × Nat) :=
  items.foldl bump []

/-- Stable insertion of `x` into `l`: `x` goes in front of the first
element `y` with `le x y`. -/
def ordInsB (le : α → α → Bool) (x : α) : List α → List α
  | [] => [x]
  | y :: l => if le x y then x :: y :: l else y :: ordInsB le x l

/-- Stable insertion sort with respect to the Boolean relation `le`. -/
def insSortB (le : α → α → Bool) : List α → List α
  | [] => []
  | x :: l => ordInsB le x (insSortB le l)

/-! ### Vocabularies (`DocumentCorpus._get_vocabs`) -/

def UNK_TOKEN : String := "<UNK>"

def PAD_TOKEN : String := "<PAD>"

/-- Ordering used by `torchtext.build_vocab_from_iterator`: descending
frequency, ties by ascending lexicographic order of the string. -/
def vocabLe (a b : String × Nat) : Bool :=
  if b.2 < a.2 then true
  else if a.2 < b.2 then false
  else strLeB a.1 b.1

/-- Model of `build_vocab_from_iterator(..., specials=[unk, pad],
special_first=True)` over a flattened item stream: the two specials at
indices 0 and 1, then every distinct observed string by descending
frequency (ties lexicographic).  External collaborator (torchtext). -/
def buildVocabList (items : List String) : List String :=
  [UNK_TOKEN, PAD_TOKEN] ++ (insSortB vocabLe (countList items)).map Prod.fst

/-- All token strings of a document list, in order. -/
def docTokens (docs : List Document) : List String :=
  (docs.map fun d => d.tree.tokens).flatten

/-- `token_vocab`: over all token strings of the corpus. -/
def buildTokenVocab (docs : List Document) : List String :=
  buildVocabList (docTokens docs)

/-- `char_vocab`: over all characters of all tokens (Python iterates a
string into length-1 strings). -/
def buildCharVocab (docs : List Document) : List String :=
  buildVocabList (((docTokens docs).map fun t => t.data.map fun c => String.mk [c]).flatten)

/-- `morph_tag_vocab`: every distinct tag string, with dense ids in
lexicographically sorted order (the `{k: v for v, k in enumerate(sorted(...))}`
comprehension); index of a tag = its position in this list. -/
def buildMorphTagVocab (docs : List Document) : List String :=
  insSortB strLeB ((docs.map fun d => d.tree.morph_tags).flatten.flatten.dedup)

/-- Vocabulary lookup with the reserved unknown default
(`set_default_index(vocab[unk_token])`, index 0). -/
def vocabLookup (v : List String) (s : String) : Nat :=
  match posOf s v with
  | some i => i
  | none => 0

/-! ### Tensorization (`DocumentCorpus._move_to_pt`) -/

/-- Character-index arrays, one per token
(`char_vocab.lookup_indices([c for c in t])`). -/
def charsTensor (cv : List String) (d : Document) : List (List Nat) :=
  d.tree.tokens.map fun t => t.data.map fun c => vocabLookup cv (String.mk [c])

/-- Token-index array (`token_vocab.lookup_indices([t for t in d.tokens])`). -/
def tokensTensor (tv : List String) (d : Document) : List Nat :=
  d.tree.tokens.map fun t => vocabLookup tv t

/-- One row of `F.one_hot(idx, K)[:, :-1]`: the one-hot vector of width
`K - 1` obtained by dropping the last column (all-zero when `idx` is the
last vocabulary index). -/
def tagRow (K idx : Nat) : List Nat :=
  (List.range (K - 1)).map fun j => if j = idx then 1 else 0

/-- Effectful map over a list in the `Except` monad (the looped
`torch`/list comprehensions of the source, stopping at the first error). -/
def mapExcept (f : α → Except ε β) : List α → Except ε (List β)
  | [] => .ok []
  | a :: l => do
    let b ← f a
    let bs ← mapExcept f l
    .ok (b :: bs)

/-- The block of rows contributed by one token's tag set: one truncated
one-hot row per tag.  A tag absent from `morph_tag_vocab` makes
`dict.get(tag, '_')` return the string `'_'`, which
`torch.tensor(..., dtype=torch.long)` rejects (`typeError`). -/
def tagsetRows (mv : List String) (tagset : List String) : Except PyErr (List (List Nat)) :=
  mapExcept (fun tag =>
    match posOf tag mv with
    | some i => .ok (tagRow mv.length i)
    | none => .error .typeError) tagset

/-- `morph_tags_tensor`: `torch.cat` of the per-tag-set blocks.
`torch.cat` on an empty list (a document with no tokens) raises
(`valueError`). -/
def morphTagsTensor (mv : List String) (d : Document) : Except PyErr (List (List Nat)) := do
  let blocks ← mapExcept (tagsetRows mv) d.tree.morph_tags
  match blocks with
  | [] => .error .valueError
  | _ => .ok blocks.flatten

/-- Tensorize one document (the body of the `for d in self.docs` loop of
`_move_to_pt`, ending in `d.set_tensors(...)`). -/
def tensorizeDoc (tv cv mv : List String) (d : Document) : Except PyErr Document := do
  let m ← morphTagsTensor mv d
  .ok { d with chars_tensor := some (charsTensor cv d)
               tokens_tensor := some (tokensTensor tv d)
               morph_tags_tensor := some m }

/-- `_move_to_pt` over the whole document list. -/
def moveToPt (tv cv mv : List String) (docs : List Document) : Except PyErr (List Document) :=
  mapExcept (tensorizeDoc tv cv mv) docs

/-! ### The corpus and `parse_tree_file` -/

/-- The corpus object (class `DocumentCorpus`): documents plus the
corpus-wide derived state, each `none` until its building pass has run. -/
structure DocumentCorpus where
  docs : List Document := []
  token_vocab : Option (List String) := none
  char_vocab : Option (List String) := none
  morph_tag_vocab : Option (List String) := none
  script_counter : Option (List (String × Nat)) := none
  script_to_id : Option (List (String × Nat)) := none
  id_to_script : Option (List String) := none
deriving DecidableEq, Repr

/-- `parse_tree_file`: scan the file's lines appending to the existing
document list, then rebuild the three vocabularies over all accumulated
documents and re-tensorize every document. -/
def parse_tree_file (c : DocumentCorpus) (lines : List String) : Except PyErr DocumentCorpus := do
  let st ← parseLinesFrom ⟨c.docs, Document.empty⟩ lines
  let docs := st.docs ++ [st.cur]
  let tv := buildTokenVocab docs
  let cv := buildCharVocab docs
  let mv := buildMorphTagVocab docs
  let docs2 ← moveToPt tv cv mv docs
  .ok { c with docs := docs2
               token_vocab := some tv
               char_vocab := some cv
               morph_tag_vocab := some mv }

/-! ### Lemma-script labeling (`DocumentCorpus.set_lemma_tags`) -/

/-- Decidable `≤` on counts, descending key for the ranking sort
(`sorted(..., key=lambda x: x[1], reverse=True)` places `a` before `b`
exactly when `b`'s count is at most `a`'s, with stability on ties). -/
def countLe (a b : String × Nat) : Bool := decide (b.2 ≤ a.2)

/-- Scripts of one document in token order
(`for wf, lm in zip(d.tokens, d.lemmas)`). -/
def docScripts (gen : String → String → String) (d : Document) : List String :=
  (d.tree.tokens.zip d.tree.lemmas).map fun p => gen p.1 p.2

/-- Pass 1: the corpus-wide script counter, in first-seen order. -/
def countScripts (gen : String → String → String) (docs : List Document) :
    List (String × Nat) :=
  docs.foldl (fun acc d => (docScripts gen d).foldl bump acc) []

/-- Pass 2: rank scripts by descending frequency, stable on ties. -/
def rankedScripts (counter : List (String × Nat)) : List (String × Nat) :=
  insSortB countLe counter

/-- `id_to_script`: the ranked script keys (`list(script_to_id.keys())`). -/
def idToScriptList (counter : List (String × Nat)) : List String :=
  (rankedScripts counter).map Prod.fst

/-- Pair each element with its position, starting at `i`. -/
def withIdx (i : Nat) : List String → List (String × Nat)
  | [] => []
  | a :: l => (a, i) :: withIdx (i + 1) l

/-- `script_to_id`: the dict `{k: i for i, (k, _) in enumerate(sorted(...))}`
as an association list in ranked order. -/
def scriptToIdList (counter : List (String × Nat)) : List (String × Nat) :=
  withIdx 0 (idToScriptList counter)

/-- Dict lookup in an association list (first matching key). -/
def assocLookup (s : String) : List (String × Nat) → Option Nat
  | [] => none
  | (k, v) :: l => if k = s then some v else assocLookup s l

/-- `set_lemma_tags`: pass 1 counts scripts, pass 2 ranks them, pass 3
attaches to every document the class id of each token's script.  (The
`script_to_id[script]` dict access cannot miss, since pass 1 counted every
script of the corpus; the `getD 0` default is unreachable.)  The
`script_examples` diagnostics dict of the source is consumed by no claim
and is not modelled. -/
def set_lemma_tags (gen : String → String → String) (c : DocumentCorpus) :
    DocumentCorpus :=
  let counter := countScripts gen c.docs
  let s2i := scriptToIdList counter
  let docs' := c.docs.map fun d =>
    { d with lemma_tags_tensor :=
               some ((docScripts gen d).map (fun s => (assocLookup s s2i).getD 0)) }
  { c with docs := docs'
           script_counter := some counter
           script_to_id := some s2i
           id_to_script := some (idToScriptList counter) }

/-- Length of the longest common leading segment of two char lists. -/
def lcpLen : List Char → List Char → Nat
  | a :: as, b :: bs => if a = b then lcpLen as bs + 1 else 0
  | _, _ => 0

/-- Modelled from the spec: `LemmaScriptGenerator(wf, lm).get_lemma_script()`
(file `morphological_tagging/data/lemma_script.py` of this repository,
which is not under `src/`).  The spec treats it as a pure deterministic
function `(form, lemma) → script` producing "a compact edit-script string
describing the minimal transformation from form to lemma (e.g., casing
change, suffix/prefix replacement)".  Modelled as the canonical suffix
edit: how many trailing characters of the form to drop, and the suffix to
append; distinct transformations yield distinct strings. -/
def get_lemma_script (wf lm : String) : String :=
  let k := lcpLen wf.data lm.data
  Nat.repr (wf.data.length - k) ++ "+" ++ String.mk (lm.data.drop k)

/-! ### Subword alignment (`DocumentCorpus.add_context_embs`) -/

/-- The span-matching loop: locate each token's literal text by sequential
search starting at offset `e` (the end of the previous match); record
absolute `(start, end)` spans.  A token not found after the previous
match's end is the alignment failure (`re.search` returns `None` and
`match.span()` raises). -/
def find_token_spans : List String → List Char → Nat → Except PyErr (List (Nat × Nat))
  | [], _, _ => .ok []
  | t :: ts, text, e =>
    match firstOccur t.data (text.drop e) with
    | none => .error .alignmentError
    | some i =>
      (find_token_spans ts text (e + (i + t.data.length))).map
        fun rest => (e + i, e + (i + t.data.length)) :: rest

/-- The correspondence loop over the non-structural sub-word end offsets:
each sub-word is appended to the bucket of the current token `index`;
`index` advances when a sub-word's end equals the current token span's
end.  `spanEnds[index]` out of range is an `IndexError`.  The result lists
the bucket of each sub-word in order (the `defaultdict` of the source is
the fibers of this assignment). -/
def corrAssign (spanEnds : List Nat) : List Nat → Nat → Except PyErr (List Nat)
  | [], _ => .ok []
  | e :: rest, index =>
    match spanEnds[index]? with
    | none => .error .indexError
    | some se =>
      (corrAssign spanEnds rest (if e = se then index + 1 else index)).map
        fun tail => index :: tail

/-- The per-document body of `add_context_embs`: tokenizer offsets are
external collaborator input; the loop drops the first and last structural
sub-words (`offset_mapping[1:-1]`).  The numeric pooling that follows the
correspondence is external encoder output and is not modelled; the
computed correspondence is attached to the document. -/
def add_context_embs_doc (offsets : List (Nat × Nat)) (d : Document) :
    Except PyErr Document :=
  match d.text with
  | none => .error .typeError
  | some txt => do
    let spans ← find_token_spans d.tree.tokens txt.data 0
    let assign ← corrAssign (spans.map Prod.snd)
      (((offsets.drop 1).dropLast).map Prod.snd) 0
    .ok { d with context_corr := some assign }

/-- The spec-side description of span-matching success: every token's
exact literal text occurs in the raw text at or after the end of the
previous token's match. -/
inductive AllLocatable : List String → List Char → Prop
  | nil (s : List Char) : AllLocatable [] s
  | cons (t : String) (ts : List String) (s : List Char) (i : Nat) :
      firstOccur t.data s = some i →
      AllLocatable ts (s.drop (i + t.data.length)) →
      AllLocatable (t :: ts) s

/-- The data-model invariant of a `Tree`: the four parallel lists have
equal length. -/
def TreeWF (t : Tree) : Prop :=
  t.raw.length = t.tokens.length ∧
  t.tokens.length = t.lemmas.length ∧
  t.lemmas.length = t.morph_tags.length

/-- The parser-state invariant: every emitted document and the current
document satisfy the `Tree` invariant. -/
def StateWF (st : ParseState) : Prop :=
  (∀ d ∈ st.docs, TreeWF d.tree) ∧ TreeWF st.cur.tree

/-- The lines Python file iteration yields for a file's content: split on
newline, with the empty piece after a trailing newline not producing a
line. -/
def fileLines (content : String) : List String :=
  let ps := splitOnCharStr '\n' content
  if ps.getLast? = some "" then ps.dropLast else ps

/-! ## Concrete inputs used by the claims -/

/-- The two-sentence example input of the claims, as its file lines. -/
def exLines : List String :=
  fileLines "1\tdog\tdog\t_\t_\t_\t_\t_\t_\t_\n\n1\tdogs\tdog\t_\t_\tNumber=Plur\t_\t_\t_\t_\n"

/-- A token row whose single token carries two morphological tags. -/
def cexLine : String := "1\tx\tx\t_\t_\tA;B\t_\t_\t_\t_"

/-- The document `cexLine` parses to. -/
def cexDoc : Document :=
  { tree := { raw := [("x", "x", "A;B")]
              tokens := ["x"]
              lemmas := ["x"]
              morph_tags := [["A", "B"]] } }

/-- A document whose raw text does not contain its token's literal text
(the token is `"ab"`, the text `"ax"`). -/
def badAlignDoc : Document :=
  { text := some "ax", tree := { tokens := ["ab"] } }

/-- A document whose two tokens align with the example offsets below. -/
def okAlignDoc : Document :=
  { text := some "ab c", tree := { tokens := ["ab", "c"] } }

/-- Tokenizer offsets for `okAlignDoc`: structural first and last entries,
with four sub-word spans ending at 1, 2, 3 and 4. -/
def okAlignOffsets : List (Nat × Nat) :=
  [(0, 0), (0, 1), (1, 2), (2, 3), (3, 4), (0, 0)]

/-- `okAlignDoc` after the alignment pass. -/
def okAlignedDoc : Document :=
  { text := some "ab c", tree := { tokens := ["ab", "c"] },
    context_corr := some [0, 0, 1, 1] }

/-- A one-row file for exercising `parse_tree_file` end to end. -/
def c9lines : List String := ["1\tdog\tdog\t_\t_\t_\t_\t_\t_\t_"]

/-- The corpus `parse_tree_file` produces from `c9lines` on a fresh corpus. -/
def c9res : DocumentCorpus :=
  { docs := [{ tree := { raw := [("dog", "dog", "_")]
                         tokens := ["dog"]
                         lemmas := ["dog"]
                         morph_tags := [["_"]] }
               chars_tensor := some [[2, 4, 3]]
               tokens_tensor := some [2]
               morph_tags_tensor := some [[]] }]
    token_vocab := some ["<UNK>", "<PAD>", "dog"]
    char_vocab := some ["<UNK>", "<PAD>", "d", "g", "o"]
    morph_tag_vocab := some ["_"] }

/-! ## Claim C2 -/

/-- Claim C2: on the two-sentence example input, parsing yields exactly two
documents with token lists `["dog"]` and `["dogs"]`; `morph_tag_vocab` maps
`"Number=Plur"` to 0; the tensorization pass gives document 2 the tag row
`[1]` and document 1 the row `[0]`; and lemma labeling (with the modelled
script generator) produces a `script_to_id` with exactly two distinct
entries. -/
theorem C2_example_scenario :
    (parse_tree_file {} exLines).map (fun c => c.docs.map fun d => d.tree.tokens)
      = .ok [["dog"], ["dogs"]] ∧
    (parse_tree_file {} exLines).map (fun c => c.morph_tag_vocab)
      = .ok (some ["Number=Plur", "_"]) ∧
    posOf "Number=Plur" ["Number=Plur", "_"] = some 0 ∧
    (parse_tree_file {} exLines).map (fun c => c.docs.map fun d => d.morph_tags_tensor)
      = .ok [some [[0]], some [[1]]] ∧
    (parse_tree_file {} exLines).map
        (fun c => (set_lemma_tags get_lemma_script c).script_to_id)
      = .ok (some [("0+", 0), ("1+", 1)]) ∧
    ([("0+", 0), ("1+", 1)].map (Prod.fst (β := Nat))).Nodup ∧
    [("0+", 0), ("1+", 1)].length = 2 := by
  refine ⟨by decide, by decide, by decide, by decide, by decide, by decide, rfl⟩

/-! ## General lemmas about `Tree.add` and the parser -/

theorem exc_bind_ok (a : α) (f : α → Except ε β) : (Except.ok a).bind f = f a := rfl

theorem exc_bind_error (e : ε) (f : α → Except ε β) :
    (Except.error e).bind f = .error e := rfl

theorem exc_map_ok (f : α → β) (a : α) :
    (Except.ok a : Except ε α).map f = .ok (f a) := rfl

theorem exc_map_error (f : α → β) (e : ε) :
    (Except.error e : Except ε α).map f = .error e := rfl

theorem parseStep_nil (st : ParseState) :
    parseStep st [] = .ok ⟨st.docs ++ [st.cur], Document.empty⟩ := rfl

theorem parseStep_cons (st : ParseState) (r0 : String) (rest : List String) :
    parseStep st (r0 :: rest)
      = (if containsSub "# sent_id = " r0 then
          .ok ⟨st.docs, { st.cur with sent_id := some (strDrop r0 12) }⟩
        else if containsSub "# text = " r0 then
          .ok ⟨st.docs, { st.cur with text := some (strDrop r0 9) }⟩
        else if rest.length ≥ 1 then
          if containsSub "." r0 then .ok st
          else (st.cur.tree.add (r0 :: rest)).map
            fun t => ⟨st.docs, { st.cur with tree := t }⟩
        else .ok st) := rfl

theorem parseLinesFrom_nil (st : ParseState) : parseLinesFrom st [] = .ok st := rfl

theorem parseLinesFrom_cons (st : ParseState) (l : String) (ls : List String) :
    parseLinesFrom st (l :: ls)
      = (parseStep st (rowOfLine l)).bind fun st' => parseLinesFrom st' ls := rfl

theorem parseLinesFrom_blank (st : ParseState) (ls : List String) :
    parseLinesFrom st ("" :: ls)
      = parseLinesFrom ⟨st.docs ++ [st.cur], Document.empty⟩ ls := rfl

theorem parseDocs_def (lines : List String) :
    parseDocs lines
      = (parseLinesFrom ⟨[], Document.empty⟩ lines).map fun st => st.docs ++ [st.cur] :=
  rfl

theorem add_ok_shape {t t' : Tree} {branch : List String}
    (h : Tree.add t branch = .ok t') :
    ∃ idx wf lem u1 u2 mt u3 u4 u5 u6,
      branch = [idx, wf, lem, u1, u2, mt, u3, u4, u5, u6] ∧
      t'.raw = t.raw ++ [(wf, lem, mt)] ∧
      t'.tokens = t.tokens ++ [wf] ∧
      t'.lemmas = t.lemmas ++ [lem] ∧
      t'.morph_tags = t.morph_tags ++ [splitOnCharStr ';' mt] := by
  unfold Tree.add at h
  split at h
  next a b c d e f g x y z =>
    cases h
    exact ⟨a, b, c, d, e, f, g, x, y, z, rfl, rfl, rfl, rfl, rfl⟩
  next => cases h

theorem add_len_ne {t : Tree} {branch : List String} (h : branch.length ≠ 10) :
    Tree.add t branch = .error .formatError := by
  unfold Tree.add
  split
  next a b c d e f g x y z => simp at h
  next => rfl

theorem add_error_shape {t : Tree} {branch : List String} {e : PyErr}
    (h : Tree.add t branch = .error e) : e = .formatError := by
  unfold Tree.add at h
  split at h
  next => cases h
  next => cases h; rfl

theorem parseStep_error {st : ParseState} {row : List String} {e : PyErr}
    (h : parseStep st row = .error e) : e = .formatError := by
  cases row with
  | nil => rw [parseStep_nil] at h; cases h
  | cons r0 rest =>
    rw [parseStep_cons] at h
    split_ifs at h with h1 h2 h3 h4
    all_goals
    first
      | cases h
      | (cases hadd : Tree.add st.cur.tree (r0 :: rest) with
         | ok t => rw [hadd, exc_map_ok] at h; cases h
         | error e' =>
           rw [hadd, exc_map_error] at h
           cases h
           exact add_error_shape hadd)

theorem parseLinesFrom_append (st : ParseState) (ls1 ls2 : List String) :
    parseLinesFrom st (ls1 ++ ls2)
      = (parseLinesFrom st ls1).bind fun st' => parseLinesFrom st' ls2 := by
  induction ls1 generalizing st with
  | nil => rfl
  | cons l ls ih =>
    rw [List.cons_append, parseLinesFrom_cons, parseLinesFrom_cons]
    cases hstep : parseStep st (rowOfLine l) with
    | error e => simp only [exc_bind_error]
    | ok st' => simp only [exc_bind_ok]; exact ih st'

theorem parseStep_shift (D : List Document) (c : Document) (row : List String) :
    parseStep ⟨D, c⟩ row
      = (parseStep ⟨[], c⟩ row).map fun st => ⟨D ++ st.docs, st.cur⟩ := by
  cases row with
  | nil => rw [parseStep_nil, parseStep_nil, exc_map_ok]; simp
  | cons r0 rest =>
    rw [parseStep_cons, parseStep_cons]
    split_ifs with h1 h2 h3 h4
    · simp [exc_map_ok]
    · simp [exc_map_ok]
    · simp [exc_map_ok]
    · cases hadd : Tree.add c.tree (r0 :: rest) with
      | ok t => simp [hadd, exc_map_ok]
      | error e => simp [hadd, exc_map_error]
    · simp [exc_map_ok]

theorem parseLinesFrom_shift (D : List Document) (c : Document) (ls : List String) :
    parseLinesFrom ⟨D, c⟩ ls
      = (parseLinesFrom ⟨[], c⟩ ls).map fun st => ⟨D ++ st.docs, st.cur⟩ := by
  induction ls generalizing D c with
  | nil => rw [parseLinesFrom_nil, parseLinesFrom_nil, exc_map_ok]; simp
  | cons l ls ih =>
    rw [parseLinesFrom_cons, parseLinesFrom_cons, parseStep_shift]
    cases hstep : parseStep ⟨[], c⟩ (rowOfLine l) with
    | error e => simp only [exc_map_error, exc_bind_error]
    | ok s =>
      obtain ⟨sd, sc⟩ := s
      simp only [exc_map_ok, exc_bind_ok]
      rw [ih (D ++ sd) sc, ih sd sc]
      cases hrest : parseLinesFrom ⟨[], sc⟩ ls with
      | error e => simp only [exc_map_error]
      | ok s2 =>
        simp only [exc_map_ok]
        simp [List.append_assoc]

/-! ## Claim C10 -/

/-- Claim C10: the blank-line branch appends the current document
unconditionally — even when it is empty — and starts a fresh one; hence a
lines list ending with a blank line yields a trailing empty document, two
consecutive blank lines yield an empty document between the surrounding
parses, and the appended document has zero tokens and null `sent_id` and
`text`.  (A blank input line is the `""` element of the lines list; Python
`csv.reader` yields `[]` for it; the final conjuncts record the emptiness
of the appended document.) -/
theorem C10_blank_line_documents :
    (∀ st : ParseState,
      parseStep st (rowOfLine "") = .ok ⟨st.docs ++ [st.cur], Document.empty⟩) ∧
    (∀ ls, parseDocs (ls ++ [""])
        = (parseDocs ls).map fun ds => ds ++ [Document.empty]) ∧
    (∀ ls rest, parseDocs (ls ++ "" :: "" :: rest)
        = (parseDocs ls).bind fun ds =>
            (parseDocs rest).map fun ts => ds ++ Document.empty :: ts) ∧
    Document.empty.sent_id = none ∧
    Document.empty.text = none ∧
    Document.empty.tree.tokens.length = 0 := by
  refine ⟨fun st => rfl, fun ls => ?_, fun ls rest => ?_, rfl, rfl, rfl⟩
  · rw [parseDocs_def, parseDocs_def, parseLinesFrom_append]
    cases h : parseLinesFrom ⟨[], Document.empty⟩ ls with
    | error e => simp only [exc_bind_error, exc_map_error]
    | ok st =>
      rw [exc_bind_ok, parseLinesFrom_blank, parseLinesFrom_nil]
      simp only [exc_map_ok]
  · rw [parseDocs_def, parseDocs_def, parseDocs_def, parseLinesFrom_append]
    cases h : parseLinesFrom ⟨[], Document.empty⟩ ls with
    | error e => simp only [exc_bind_error, exc_map_error]
    | ok st =>
      rw [exc_bind_ok, parseLinesFrom_blank, parseLinesFrom_blank,
        parseLinesFrom_shift]
      cases hrest : parseLinesFrom ⟨[], Document.empty⟩ rest with
      | error e => simp only [exc_map_error, exc_map_ok, exc_bind_ok, exc_bind_error]
      | ok s2 =>
        simp only [exc_map_ok, exc_bind_ok]
        simp [List.append_assoc]

/-! ## Claim C3 -/

/-- A token row with the wrong field count makes `parseStep` fail with the
format error. -/
theorem parseStep_bad_row {st : ParseState} {r0 : String} {rest : List String}
    (hlen : 1 ≤ rest.length)
    (h1 : containsSub "# sent_id = " r0 = false)
    (h2 : containsSub "# text = " r0 = false)
    (h3 : containsSub "." r0 = false)
    (h10 : (r0 :: rest).length ≠ 10) :
    parseStep st (r0 :: rest) = .error .formatError := by
  rw [parseStep_cons, add_len_ne h10]
  simp [h1, h2, h3, hlen, exc_map_error]

/-- Claim C3: a non-empty, non-comment line with more than one tab-separated
field whose first field does not contain `"."` and whose field count is not
exactly 10 makes the whole parse of the file fail with the format error,
wherever the line occurs. -/
theorem C3_format_error_aborts :
    ∀ (ls1 ls2 : List String) (line r0 : String) (rest : List String),
      rowOfLine line = r0 :: rest →
      1 ≤ rest.length →
      containsSub "# sent_id = " r0 = false →
      containsSub "# text = " r0 = false →
      containsSub "." r0 = false →
      (r0 :: rest).length ≠ 10 →
      parseDocs (ls1 ++ line :: ls2) = .error .formatError := by
  intro ls1 ls2 line r0 rest hrow hlen h1 h2 h3 h10
  have key : ∀ st : ParseState,
      parseLinesFrom st (ls1 ++ line :: ls2) = .error .formatError := by
    intro st
    induction ls1 generalizing st with
    | nil =>
      rw [List.nil_append, parseLinesFrom_cons, hrow,
        parseStep_bad_row hlen h1 h2 h3 h10, exc_bind_error]
    | cons l ls ih =>
      rw [List.cons_append, parseLinesFrom_cons]
      cases hstep : parseStep st (rowOfLine l) with
      | error e =>
        have he := parseStep_error hstep
        subst he
        rw [exc_bind_error]
      | ok st' => rw [exc_bind_ok]; exact ih st'
  rw [parseDocs_def, key, exc_map_error]

/-- Witness for C3: a two-field token row aborts a one-line parse. -/
theorem C3_format_error_aborts_witness :
    parseDocs ([] ++ "a\tb" :: []) = .error .formatError :=
  C3_format_error_aborts [] [] "a\tb" "a" ["b"] (by decide) (by decide)
    (by decide) (by decide) (by decide) (by decide)

/-! ## Claim C7 -/

theorem treeWF_empty : TreeWF Tree.empty := ⟨rfl, rfl, rfl⟩

theorem add_WF {t t' : Tree} {branch : List String}
    (h : Tree.add t branch = .ok t') (hw : TreeWF t) : TreeWF t' := by
  obtain ⟨_, _, _, _, _, _, _, _, _, _, _, hraw, htok, hlem, hmt⟩ := add_ok_shape h
  obtain ⟨w1, w2, w3⟩ := hw
  refine ⟨?_, ?_, ?_⟩ <;> simp [hraw, htok, hlem, hmt, w1, w2, w3]

theorem parseStep_WF {st st' : ParseState} {row : List String}
    (h : parseStep st row = .ok st') (hw : StateWF st) : StateWF st' := by
  obtain ⟨hdocs, hcur⟩ := hw
  cases row with
  | nil =>
    rw [parseStep_nil] at h
    cases h
    refine ⟨?_, treeWF_empty⟩
    intro d hd
    rcases List.mem_append.1 hd with hd | hd
    · exact hdocs d hd
    · rcases List.mem_singleton.1 hd with rfl; exact hcur
  | cons r0 rest =>
    rw [parseStep_cons] at h
    split_ifs at h with h1 h2 h3 h4
    · cases h; exact ⟨hdocs, hcur⟩
    · cases h; exact ⟨hdocs, hcur⟩
    · cases h; exact ⟨hdocs, hcur⟩
    · cases hadd : Tree.add st.cur.tree (r0 :: rest) with
      | ok t =>
        rw [hadd, exc_map_ok] at h
        cases h
        exact ⟨hdocs, add_WF hadd hcur⟩
      | error e => rw [hadd, exc_map_error] at h; cases h
    · cases h; exact ⟨hdocs, hcur⟩

theorem parseLinesFrom_WF {st st' : ParseState} {ls : List String}
    (h : parseLinesFrom st ls = .ok st') (hw : StateWF st) : StateWF st' := by
  induction ls generalizing st with
  | nil => rw [parseLinesFrom_nil] at h; cases h; exact hw
  | cons l ls ih =>
    rw [parseLinesFrom_cons] at h
    cases hstep : parseStep st (rowOfLine l) with
    | error e => rw [hstep, exc_bind_error] at h; cases h
    | ok s1 =>
      rw [hstep, exc_bind_ok] at h
      exact ih h (parseStep_WF hstep hw)

/-- Claim C7: (a) every document of a successful parse satisfies the
four-way length invariant `len raw = len tokens = len lemmas =
len morph_tags`; (b) every successful row addition preserves the
invariant and appends exactly one row at the tail of each parallel list —
in encounter order, never reordering or removing earlier rows; (c) a token
row whose index field contains `"."` leaves the parser state unchanged, so
such rows are never added. -/
theorem C7_tree_parallel_invariant :
    (∀ lines docs, parseDocs lines = .ok docs → ∀ d ∈ docs, TreeWF d.tree) ∧
    (∀ (t t' : Tree) (branch : List String), Tree.add t branch = .ok t' →
      (TreeWF t → TreeWF t') ∧
      ∃ idx wf lem u1 u2 mt u3 u4 u5 u6,
        branch = [idx, wf, lem, u1, u2, mt, u3, u4, u5, u6] ∧
        t'.raw = t.raw ++ [(wf, lem, mt)] ∧
        t'.tokens = t.tokens ++ [wf] ∧
        t'.lemmas = t.lemmas ++ [lem] ∧
        t'.morph_tags = t.morph_tags ++ [splitOnCharStr ';' mt]) ∧
    (∀ (st : ParseState) (r0 : String) (rest : List String),
      containsSub "# sent_id = " r0 = false →
      containsSub "# text = " r0 = false →
      1 ≤ rest.length →
      containsSub "." r0 = true →
      parseStep st (r0 :: rest) = .ok st) := by
  refine ⟨?_, ?_, ?_⟩
  · intro lines docs h d hd
    rw [parseDocs_def] at h
    cases hfold : parseLinesFrom ⟨[], Document.empty⟩ lines with
    | error e => rw [hfold, exc_map_error] at h; cases h
    | ok st =>
      rw [hfold, exc_map_ok] at h
      cases h
      have hwf : StateWF st :=
        parseLinesFrom_WF hfold ⟨fun d hd => absurd hd (List.not_mem_nil d), treeWF_empty⟩
      rcases List.mem_append.1 hd with hd | hd
      · exact hwf.1 d hd
      · rcases List.mem_singleton.1 hd with rfl; exact hwf.2
  · intro t t' branch h
    exact ⟨add_WF h, add_ok_shape h⟩
  · intro st r0 rest h1 h2 hlen hdot
    rw [parseStep_cons, h1, h2, hdot]
    simp [hlen]

/-- Witness for C7: the invariant at the parsed example corpus, the row
addition producing `cexDoc`'s tree, and a skipped multiword-token row. -/
theorem C7_tree_parallel_invariant_witness :
    TreeWF cexDoc.tree ∧
    (TreeWF Tree.empty → TreeWF cexDoc.tree) ∧
    parseStep ⟨[], Document.empty⟩ ["1.2", "x"] = .ok ⟨[], Document.empty⟩ := by
  refine ⟨?_, ?_, ?_⟩
  · exact (C7_tree_parallel_invariant.1 [cexLine] [cexDoc] (by decide)) cexDoc
      (by simp)
  · exact fun h =>
      ((C7_tree_parallel_invariant.2.1 Tree.empty cexDoc.tree
        ["1", "x", "x", "_", "_", "A;B", "_", "_", "_", "_"] (by decide)).1) h
  · exact C7_tree_parallel_invariant.2.2 ⟨[], Document.empty⟩ "1.2" ["x"]
      (by decide) (by decide) (by decide) (by decide)

/-! ## Claim C1 -/

theorem mapExcept_nil (f : α → Except ε β) : mapExcept f [] = .ok [] := rfl

theorem mapExcept_cons (f : α → Except ε β) (a : α) (l : List α) :
    mapExcept f (a :: l)
      = (f a).bind fun b => (mapExcept f l).bind fun bs => .ok (b :: bs) := rfl

theorem mapExcept_ok_forall2 {f : α → Except ε β} {l : List α} {l' : List β}
    (h : mapExcept f l = .ok l') :
    List.Forall₂ (fun a b => f a = .ok b) l l' := by
  induction l generalizing l' with
  | nil => rw [mapExcept_nil] at h; cases h; exact List.Forall₂.nil
  | cons a l ih =>
    rw [mapExcept_cons] at h
    cases hfa : f a with
    | error e => rw [hfa, exc_bind_error] at h; cases h
    | ok b =>
      rw [hfa, exc_bind_ok] at h
      cases hrest : mapExcept f l with
      | error e => rw [hrest, exc_bind_error] at h; cases h
      | ok bs =>
        rw [hrest, exc_bind_ok] at h
        cases h
        exact List.Forall₂.cons hfa (ih hrest)

theorem forall2_mem_right {R : α → β → Prop} {l : List α} {l' : List β}
    (h : List.Forall₂ R l l') {b : β} (hb : b ∈ l') : ∃ a ∈ l, R a b := by
  induction h with
  | nil => cases hb
  | cons hR hF ih =>
    rcases List.mem_cons.1 hb with rfl | hb
    · exact ⟨_, List.mem_cons_self _ _, hR⟩
    · rcases ih hb with ⟨a, ha, hab⟩
      exact ⟨a, List.mem_cons_of_mem _ ha, hab⟩

theorem posOf_lt_length {x : String} {v : List String} {i : Nat}
    (h : posOf x v = some i) : i < v.length := by
  induction v generalizing i with
  | nil => cases h
  | cons y l ih =>
    unfold posOf at h
    split_ifs at h with hy
    · cases h; simp
    · cases hp : posOf x l with
      | none => rw [hp] at h; cases h
      | some j =>
        rw [hp] at h
        cases h
        exact Nat.succ_lt_succ (ih hp)

theorem tagRow_length (K i : Nat) : (tagRow K i).length = K - 1 := by
  simp [tagRow]

theorem tagsetRows_shape {mv : List String} {ts : List String}
    {b : List (List Nat)} (h : tagsetRows mv ts = .ok b) :
    b.length = ts.length ∧
    ∀ r ∈ b, ∃ i, i < mv.length ∧ r = tagRow mv.length i := by
  have hf := mapExcept_ok_forall2 h
  constructor
  · exact hf.length_eq.symm
  · intro r hr
    rcases forall2_mem_right hf hr with ⟨tag, _, htag⟩
    cases hpos : posOf tag mv with
    | none => rw [hpos] at htag; cases htag
    | some i =>
      rw [hpos] at htag
      cases htag
      exact ⟨i, posOf_lt_length hpos, rfl⟩

theorem tagsetRows_map_length {mv : List String} {tss : List (List String)}
    {blocks : List (List (List Nat))}
    (h : List.Forall₂ (fun ts b => tagsetRows mv ts = .ok b) tss blocks) :
    blocks.map List.length = tss.map List.length := by
  induction h with
  | nil => rfl
  | cons hR hF ih => simp only [List.map_cons, (tagsetRows_shape hR).1, ih]

/-- Claim C1, amended: on success, the morphological-tag encoding has one
row per (token, tag) occurrence — `Σ |tag set|` rows, not one row per
token — each row of width `|vocab| - 1` (the last one-hot column is
dropped), and each row is the truncated one-hot of a single tag's
vocabulary index (all-zero exactly when that tag maps to the last index);
when every token carries exactly one tag this degenerates to one row per
token. -/
theorem morphTagsTensor_def (mv : List String) (d : Document) :
    morphTagsTensor mv d
      = (mapExcept (tagsetRows mv) d.tree.morph_tags).bind fun blocks =>
          match blocks with
          | [] => .error .valueError
          | _ => .ok blocks.flatten := rfl

theorem C1_morph_tensor_rows :
    ∀ (mv : List String) (d : Document) (M : List (List Nat)),
      morphTagsTensor mv d = .ok M →
      M.length = (d.tree.morph_tags.map List.length).sum ∧
      ∀ r ∈ M, r.length = mv.length - 1 ∧
        ∃ i, i < mv.length ∧ r = tagRow mv.length i := by
  intro mv d M h
  rw [morphTagsTensor_def] at h
  cases hblocks : mapExcept (tagsetRows mv) d.tree.morph_tags with
  | error e => rw [hblocks, exc_bind_error] at h; cases h
  | ok blocks =>
    rw [hblocks, exc_bind_ok] at h
    cases blocks with
    | nil => cases h
    | cons b bl =>
      cases h
      have hf := mapExcept_ok_forall2 hblocks
      constructor
      · rw [List.length_flatten, tagsetRows_map_length hf]
      · intro r hr
        rcases List.mem_flatten.1 hr with ⟨blk, hblk, hrblk⟩
        rcases forall2_mem_right hf hblk with ⟨ts, _, hts⟩
        rcases (tagsetRows_shape hts).2 r hrblk with ⟨i, hi, hrow⟩
        exact ⟨by rw [hrow, tagRow_length], i, hi, hrow⟩

/-- Witness for the amended C1 at the two-tag single-token document. -/
theorem C1_morph_tensor_rows_witness :
    ([[1], [0]] : List (List Nat)).length
        = (cexDoc.tree.morph_tags.map List.length).sum ∧
    ∀ r ∈ ([[1], [0]] : List (List Nat)),
      r.length = (["A", "B"] : List String).length - 1 ∧
      ∃ i, i < (["A", "B"] : List String).length ∧
        r = tagRow (["A", "B"] : List String).length i :=
  C1_morph_tensor_rows ["A", "B"] cexDoc [[1], [0]] (by decide)

/-- Counterexample to C1 as stated: the parsed single-token document whose
token carries the two tags `A;B` gets a tensor with two rows of width one,
not one (multi-hot) row per token of width two. -/
theorem C1_multi_hot_cex :
    (parse_tree_file {} [cexLine]).map (fun c => c.morph_tag_vocab)
      = .ok (some ["A", "B"]) ∧
    (parse_tree_file {} [cexLine]).map
        (fun c => c.docs.map fun d => (d.tree.tokens.length, d.morph_tags_tensor))
      = .ok [(1, some [[1], [0]])] ∧
    ¬ (([[1], [0]] : List (List Nat)).length = 1 ∧
        ∀ r ∈ ([[1], [0]] : List (List Nat)), r.length = 2) := by
  exact ⟨by decide, by decide, by decide⟩

/-! ## Claim C6 -/

theorem bump_sum (l : List (String × Nat)) (s : String) :
    ((bump l s).map Prod.snd).sum = (l.map Prod.snd).sum + 1 := by
  induction l with
  | nil => rfl
  | cons p t ih =>
    obtain ⟨k, n⟩ := p
    unfold bump
    split_ifs with hk
    · simp only [List.map_cons, List.sum_cons]; omega
    · simp only [List.map_cons, List.sum_cons, ih]; omega

theorem foldl_bump_sum (items : List String) :
    ∀ acc : List (String × Nat),
      ((items.foldl bump acc).map Prod.snd).sum
        = (acc.map Prod.snd).sum + items.length := by
  induction items with
  | nil => intro acc; simp
  | cons s items ih =>
    intro acc
    simp only [List.foldl_cons, ih, bump_sum, List.length_cons]
    omega

theorem countScripts_sum_aux (gen : String → String → String) :
    ∀ (docs : List Document) (acc : List (String × Nat)),
      (∀ d ∈ docs, d.tree.lemmas.length = d.tree.tokens.length) →
      ((docs.foldl (fun acc d => (docScripts gen d).foldl bump acc) acc).map
          Prod.snd).sum
        = (acc.map Prod.snd).sum + (docs.map fun d => d.tree.tokens.length).sum := by
  intro docs
  induction docs with
  | nil => intro acc _; simp
  | cons d ds ih =>
    intro acc h
    simp only [List.foldl_cons, List.map_cons, List.sum_cons]
    rw [ih _ (fun x hx => h x (List.mem_cons_of_mem _ hx)), foldl_bump_sum]
    have hd : (docScripts gen d).length = d.tree.tokens.length := by
      unfold docScripts
      rw [List.length_map, List.length_zip, h d (List.mem_cons_self _ _),
        Nat.min_self]
    rw [hd]
    omega

/-- Claim C6: after the lemma-labeling pass, the counts in
`script_counter` sum to the total token count of the corpus (for any
corpus whose documents satisfy the `Tree` parallel-list invariant, which
every parsed document does). -/
theorem C6_script_counter_total (gen : String → String → String)
    (c : DocumentCorpus)
    (h : ∀ d ∈ c.docs, d.tree.lemmas.length = d.tree.tokens.length) :
    ∃ ctr, (set_lemma_tags gen c).script_counter = some ctr ∧
      (ctr.map Prod.snd).sum = (c.docs.map fun d => d.tree.tokens.length).sum := by
  refine ⟨countScripts gen c.docs, rfl, ?_⟩
  have H := countScripts_sum_aux gen c.docs [] h
  simpa [countScripts] using H

/-- Witness for C6 on a one-document corpus. -/
theorem C6_script_counter_total_witness :
    ∃ ctr,
      (set_lemma_tags get_lemma_script { docs := [cexDoc] }).script_counter
          = some ctr ∧
      (ctr.map Prod.snd).sum
        = (([cexDoc].map fun d => d.tree.tokens.length)).sum :=
  C6_script_counter_total get_lemma_script { docs := [cexDoc] } (by decide)

/-! ## Claim C5 -/

theorem bump_keys (l : List (String × Nat)) (s : String) :
    (bump l s).map Prod.fst
      = if s ∈ l.map Prod.fst then l.map Prod.fst else l.map Prod.fst ++ [s] := by
  induction l with
  | nil => simp [bump]
  | cons p t ih =>
    obtain ⟨k, n⟩ := p
    by_cases hk : k = s
    · subst hk
      simp [bump, List.mem_cons]
    · simp only [bump, if_neg hk, List.map_cons, ih]
      by_cases h2 : s ∈ t.map Prod.fst
      · rw [if_pos h2, if_pos (by simp [List.mem_cons, h2])]
      · have hsk : ¬ s ∈ k :: List.map Prod.fst t := by
          simp only [List.mem_cons]
          push_neg
          exact ⟨fun hs => hk hs.symm, h2⟩
        rw [if_neg h2, if_neg hsk]
        simp

theorem bump_keys_nodup {l : List (String × Nat)} {s : String}
    (h : (l.map Prod.fst).Nodup) : ((bump l s).map Prod.fst).Nodup := by
  rw [bump_keys]
  split_ifs with hm
  · exact h
  · simp [List.nodup_append, h, hm]

theorem foldl_bump_nodup (items : List String) :
    ∀ acc : List (String × Nat), (acc.map Prod.fst).Nodup →
      ((items.foldl bump acc).map Prod.fst).Nodup := by
  induction items with
  | nil => intro acc h; exact h
  | cons s items ih => intro acc h; exact ih _ (bump_keys_nodup h)

theorem countScripts_keys_nodup (gen : String → String → String)
    (docs : List Document) : ((countScripts gen docs).map Prod.fst).Nodup := by
  unfold countScripts
  suffices H : ∀ (ds : List Document) (acc : List (String × Nat)),
      (acc.map Prod.fst).Nodup →
      ((ds.foldl (fun acc d => (docScripts gen d).foldl bump acc) acc).map
          Prod.fst).Nodup by
    exact H docs [] (by simp)
  intro ds
  induction ds with
  | nil => intro acc h; exact h
  | cons d ds ih => intro acc h; exact ih _ (foldl_bump_nodup _ _ h)

theorem ordInsB_perm (le : α → α → Bool) (x : α) (l : List α) :
    List.Perm (ordInsB le x l) (x :: l) := by
  induction l with
  | nil => exact List.Perm.refl _
  | cons y t ih =>
    unfold ordInsB
    split_ifs with h
    · exact List.Perm.refl _
    · exact (ih.cons y).trans (List.Perm.swap x y t)

theorem insSortB_perm (le : α → α → Bool) (l : List α) :
    List.Perm (insSortB le l) l := by
  induction l with
  | nil => exact List.Perm.refl _
  | cons x t ih => exact (ordInsB_perm le x (insSortB le t)).trans (ih.cons x)

theorem ordInsB_pairwise {le : α → α → Bool}
    (htot : ∀ a b, le a b = false → le b a = true)
    (htrans : ∀ a b c, le a b = true → le b c = true → le a c = true)
    (x : α) {l : List α} (h : l.Pairwise fun a b => le a b = true) :
    (ordInsB le x l).Pairwise fun a b => le a b = true := by
  induction l with
  | nil => simp [ordInsB]
  | cons y t ih =>
    unfold ordInsB
    rcases List.pairwise_cons.1 h with ⟨hy, ht⟩
    split_ifs with hxy
    · refine List.pairwise_cons.2 ⟨?_, h⟩
      intro b hb
      rcases List.mem_cons.1 hb with rfl | hb
      · exact hxy
      · exact htrans x y b hxy (hy b hb)
    · refine List.pairwise_cons.2 ⟨?_, ih ht⟩
      intro b hb
      have hmem := (ordInsB_perm le x t).mem_iff.1 hb
      rcases List.mem_cons.1 hmem with heq | hb2
      · rw [heq]; exact htot x y (Bool.eq_false_iff.2 hxy)
      · exact hy b hb2

theorem insSortB_pairwise {le : α → α → Bool}
    (htot : ∀ a b, le a b = false → le b a = true)
    (htrans : ∀ a b c, le a b = true → le b c = true → le a c = true)
    (l : List α) : (insSortB le l).Pairwise fun a b => le a b = true := by
  induction l with
  | nil => simp [insSortB]
  | cons x t ih => exact ordInsB_pairwise htot htrans x ih

theorem ordInsB_countLe_filter (x : String × Nat) (l : List (String × Nat))
    (n : Nat) :
    (ordInsB countLe x l).filter (fun p => decide (p.2 = n))
      = if x.2 = n then x :: l.filter (fun p => decide (p.2 = n))
        else l.filter (fun p => decide (p.2 = n)) := by
  induction l with
  | nil =>
    by_cases hx : x.2 = n <;> simp [ordInsB, List.filter, hx]
  | cons y t ih =>
    unfold ordInsB
    by_cases hle : countLe x y = true
    · rw [if_pos hle]
      by_cases hx : x.2 = n
      · rw [if_pos hx]
        simp [List.filter_cons, hx]
      · rw [if_neg hx]
        simp [List.filter_cons, hx]
    · rw [if_neg hle]
      have hy_gt : x.2 < y.2 := by
        have h2 : ¬ y.2 ≤ x.2 := by simpa [countLe] using hle
        omega
      rw [List.filter_cons, List.filter_cons, ih]
      by_cases hx : x.2 = n
      · have hy_ne : ¬ y.2 = n := by omega
        simp [hx, hy_ne]
      · simp [hx]

theorem insSortB_countLe_filter (l : List (String × Nat)) (n : Nat) :
    (insSortB countLe l).filter (fun p => decide (p.2 = n))
      = l.filter (fun p => decide (p.2 = n)) := by
  induction l with
  | nil => rfl
  | cons x t ih =>
    unfold insSortB
    rw [ordInsB_countLe_filter, List.filter_cons, ih]
    by_cases hx : x.2 = n <;> simp [hx]

theorem withIdx_snd (l : List String) :
    ∀ n, (withIdx n l).map Prod.snd = List.range' n l.length := by
  induction l with
  | nil => intro n; rfl
  | cons a t ih =>
    intro n
    simp only [withIdx, List.map_cons, List.length_cons, List.range'_succ, ih]

theorem withIdx_lookup (l : List String) (hnd : l.Nodup) :
    ∀ (n i : Nat) (h : i < l.length),
      assocLookup (l.get ⟨i, h⟩) (withIdx n l) = some (n + i) := by
  induction l with
  | nil => intro n i h; exact absurd h (Nat.not_lt_zero i)
  | cons a t ih =>
    intro n i h
    cases i with
    | zero => simp [withIdx, assocLookup]
    | succ j =>
      have hj : j < t.length := Nat.lt_of_succ_lt_succ h
      have hne : a ≠ t.get ⟨j, hj⟩ := by
        intro hEq
        exact (List.nodup_cons.1 hnd).1 (hEq ▸ t.get_mem j hj)
      have hrec := ih (List.nodup_cons.1 hnd).2 (n + 1) j hj
      simp only [List.get_cons_succ, withIdx, assocLookup, if_neg hne, hrec]
      congr 1
      omega

theorem idToScript_nodup (gen : String → String → String)
    (docs : List Document) : (idToScriptList (countScripts gen docs)).Nodup := by
  have h1 := countScripts_keys_nodup gen docs
  have hperm : List.Perm
      ((rankedScripts (countScripts gen docs)).map Prod.fst)
      ((countScripts gen docs).map Prod.fst) :=
    (insSortB_perm countLe (countScripts gen docs)).map Prod.fst
  exact hperm.nodup_iff.2 h1

theorem countLe_total (a b : String × Nat) :
    countLe a b = false → countLe b a = true := by
  simp only [countLe, decide_eq_true_eq, decide_eq_false_iff_not]
  omega

theorem countLe_trans (a b c : String × Nat) :
    countLe a b = true → countLe b c = true → countLe a c = true := by
  simp only [countLe, decide_eq_true_eq]
  omega

/-- Claim C5: the lemma-labeling pass is deterministic (it is a pure
function of the corpus and the generator, so two runs coincide); the
stored `script_to_id` and `id_to_script` are derived from the ranked
script list, which is ordered by descending frequency (`Pairwise ≥` on
counts), is stable on ties (the sub-list at each fixed count equals the
counter's, i.e. first-seen order), and is a permutation of the counter's
distinct scripts; ids are dense `0..K-1` in ranked order, and
`id_to_script` inverts `script_to_id`. -/
theorem C5_deterministic_ranking (gen : String → String → String)
    (c : DocumentCorpus) :
    set_lemma_tags gen c = set_lemma_tags gen c ∧
    (set_lemma_tags gen c).script_to_id
        = some (scriptToIdList (countScripts gen c.docs)) ∧
    (set_lemma_tags gen c).id_to_script
        = some (idToScriptList (countScripts gen c.docs)) ∧
    (rankedScripts (countScripts gen c.docs)).Pairwise (fun a b => b.2 ≤ a.2) ∧
    (∀ n, (rankedScripts (countScripts gen c.docs)).filter
          (fun p => decide (p.2 = n))
        = (countScripts gen c.docs).filter (fun p => decide (p.2 = n))) ∧
    List.Perm (rankedScripts (countScripts gen c.docs))
        (countScripts gen c.docs) ∧
    (scriptToIdList (countScripts gen c.docs)).map Prod.snd
        = List.range (idToScriptList (countScripts gen c.docs)).length ∧
    ∀ i (h : i < (idToScriptList (countScripts gen c.docs)).length),
      assocLookup ((idToScriptList (countScripts gen c.docs)).get ⟨i, h⟩)
          (scriptToIdList (countScripts gen c.docs)) = some i := by
  refine ⟨rfl, rfl, rfl, ?_, ?_, ?_, ?_, ?_⟩
  · exact (insSortB_pairwise countLe_total countLe_trans _).imp
      fun hab => by simpa [countLe] using hab
  · intro n
    exact insSortB_countLe_filter _ n
  · exact insSortB_perm countLe _
  · rw [scriptToIdList, withIdx_snd, List.range_eq_range']
  · intro i h
    have := withIdx_lookup (idToScriptList (countScripts gen c.docs))
      (idToScript_nodup gen c.docs) 0 i h
    simpa using this

/-- Witness for C5 on a one-document corpus: the first ranked script maps
back to id 0. -/
theorem C5_deterministic_ranking_witness :
    assocLookup
        ((idToScriptList (countScripts get_lemma_script
            ({ docs := [cexDoc] } : DocumentCorpus).docs)).get ⟨0, by decide⟩)
        (scriptToIdList (countScripts get_lemma_script
            ({ docs := [cexDoc] } : DocumentCorpus).docs)) = some 0 :=
  (C5_deterministic_ranking get_lemma_script
    { docs := [cexDoc] }).2.2.2.2.2.2.2 0 (by decide)

/-! ## Claim C4 -/

theorem find_token_spans_nil (text : List Char) (e : Nat) :
    find_token_spans [] text e = .ok [] := rfl

theorem find_token_spans_cons (t : String) (ts : List String) (text : List Char)
    (e : Nat) :
    find_token_spans (t :: ts) text e
      = match firstOccur t.data (text.drop e) with
        | none => .error .alignmentError
        | some i =>
          (find_token_spans ts text (e + (i + t.data.length))).map
            fun rest => (e + i, e + (i + t.data.length)) :: rest := rfl

theorem find_token_spans_cons_none {t : String} {ts : List String}
    {text : List Char} {e : Nat}
    (h : firstOccur t.data (text.drop e) = none) :
    find_token_spans (t :: ts) text e = .error .alignmentError := by
  rw [find_token_spans_cons, h]

theorem find_token_spans_cons_some {t : String} {ts : List String}
    {text : List Char} {e i : Nat}
    (h : firstOccur t.data (text.drop e) = some i) :
    find_token_spans (t :: ts) text e
      = (find_token_spans ts text (e + (i + t.data.length))).map
          fun rest => (e + i, e + (i + t.data.length)) :: rest := by
  rw [find_token_spans_cons, h]

theorem findSpans_error {ts : List String} {text : List Char} {e : Nat}
    {err : PyErr} (h : find_token_spans ts text e = .error err) :
    err = .alignmentError := by
  induction ts generalizing e with
  | nil => rw [find_token_spans_nil] at h; cases h
  | cons t ts ih =>
    cases hocc : firstOccur t.data (text.drop e) with
    | none => rw [find_token_spans_cons_none hocc] at h; cases h; rfl
    | some i =>
      rw [find_token_spans_cons_some hocc] at h
      cases hrec : find_token_spans ts text (e + (i + t.data.length)) with
      | error err2 =>
        rw [hrec, exc_map_error] at h
        cases h
        exact ih hrec
      | ok rest => rw [hrec, exc_map_ok] at h; cases h

theorem findSpans_ok_iff (ts : List String) (text : List Char) (e : Nat) :
    (∃ sp, find_token_spans ts text e = .ok sp)
      ↔ AllLocatable ts (text.drop e) := by
  induction ts generalizing e with
  | nil =>
    refine ⟨fun _ => AllLocatable.nil _, fun _ => ⟨[], rfl⟩⟩
  | cons t ts ih =>
    cases hocc : firstOccur t.data (text.drop e) with
    | none =>
      constructor
      · rintro ⟨sp, hsp⟩
        rw [find_token_spans_cons_none hocc] at hsp
        cases hsp
      · intro hl
        cases hl with
        | cons _ _ _ i hfo _ => rw [hocc] at hfo; cases hfo
    | some i =>
      constructor
      · rintro ⟨sp, hsp⟩
        rw [find_token_spans_cons_some hocc] at hsp
        cases hrec : find_token_spans ts text (e + (i + t.data.length)) with
        | error err => rw [hrec, exc_map_error] at hsp; cases hsp
        | ok rest =>
          have hl : AllLocatable ts (text.drop (e + (i + t.data.length))) :=
            (ih _).1 ⟨rest, hrec⟩
          refine AllLocatable.cons t ts (text.drop e) i hocc ?_
          rw [List.drop_drop]
          exact hl
      · intro hl
        cases hl with
        | cons _ _ _ j hfo hrest =>
          rw [hocc] at hfo
          cases hfo
          rw [List.drop_drop] at hrest
          rcases (ih (e + (i + t.data.length))).2 hrest with ⟨sp, hsp⟩
          exact ⟨_, by rw [find_token_spans_cons_some hocc, hsp, exc_map_ok]⟩

theorem add_context_embs_doc_some (offsets : List (Nat × Nat)) (d : Document)
    (txt : String) (htxt : d.text = some txt) :
    add_context_embs_doc offsets d
      = (find_token_spans d.tree.tokens txt.data 0).bind fun spans =>
          (corrAssign (spans.map Prod.snd)
              (((offsets.drop 1).dropLast).map Prod.snd) 0).bind fun assign =>
            .ok { d with context_corr := some assign } := by
  unfold add_context_embs_doc
  rw [htxt]
  rfl

/-- Claim C4: a document whose raw text does not contain some token's
exact literal text at or after the end of the previous token's match makes
the subword-alignment pass fail with the alignment error specifically (not
the loop's index error or any other failure), and no correspondence is
attached — the pass produces no document. -/
theorem C4_alignment_error (offsets : List (Nat × Nat)) (d : Document)
    (txt : String) (htxt : d.text = some txt)
    (h : ¬ AllLocatable d.tree.tokens txt.data) :
    add_context_embs_doc offsets d = .error .alignmentError := by
  rw [add_context_embs_doc_some offsets d txt htxt]
  have hfail : find_token_spans d.tree.tokens txt.data 0
      = .error .alignmentError := by
    cases hf : find_token_spans d.tree.tokens txt.data 0 with
    | ok sp =>
      exfalso
      apply h
      have := (findSpans_ok_iff d.tree.tokens txt.data 0).1 ⟨sp, hf⟩
      simpa using this
    | error err =>
      rw [findSpans_error hf]
  rw [hfail, exc_bind_error]

/-- Witness for C4: the pass fails on `badAlignDoc` with the alignment
error. -/
theorem C4_alignment_error_witness :
    add_context_embs_doc [] badAlignDoc = .error .alignmentError := by
  refine C4_alignment_error [] badAlignDoc "ax" rfl ?_
  intro h
  cases h with
  | cons _ _ _ i hfo _ =>
    have hnone : firstOccur ("ab".data) ("ax".data) = none := by decide
    rw [hnone] at hfo
    cases hfo

/-! ## Claim C8 -/

theorem corrAssign_nil (spanEnds : List Nat) (idx : Nat) :
    corrAssign spanEnds [] idx = .ok [] := rfl

theorem corrAssign_cons (spanEnds : List Nat) (e : Nat) (rest : List Nat)
    (idx : Nat) :
    corrAssign spanEnds (e :: rest) idx
      = match spanEnds[idx]? with
        | none => .error .indexError
        | some se =>
          (corrAssign spanEnds rest (if e = se then idx + 1 else idx)).map
            fun tail => idx :: tail := rfl

theorem corrAssign_cons_some {spanEnds : List Nat} {e idx se : Nat}
    (rest : List Nat) (h : spanEnds[idx]? = some se) :
    corrAssign spanEnds (e :: rest) idx
      = (corrAssign spanEnds rest (if e = se then idx + 1 else idx)).map
          fun tail => idx :: tail := by
  rw [corrAssign_cons, h]

theorem corrAssign_cons_none {spanEnds : List Nat} {e idx : Nat}
    (rest : List Nat) (h : spanEnds[idx]? = none) :
    corrAssign spanEnds (e :: rest) idx = .error .indexError := by
  rw [corrAssign_cons, h]

theorem corrAssign_spec (spanEnds : List Nat) :
    ∀ (ends : List Nat) (idx : Nat) (bs : List Nat),
      corrAssign spanEnds ends idx = .ok bs →
      bs.length = ends.length ∧
      List.Chain' (· ≤ ·) bs ∧
      (∀ j ∈ bs, idx ≤ j) ∧
      (∀ j ∈ bs, ∀ k, idx ≤ k → k ≤ j → k ∈ bs) := by
  intro ends
  induction ends with
  | nil =>
    intro idx bs h
    rw [corrAssign_nil] at h
    cases h
    exact ⟨rfl, List.chain'_nil, by simp, by simp⟩
  | cons e rest ih =>
    intro idx bs h
    cases hse : spanEnds[idx]? with
    | none => rw [corrAssign_cons_none rest hse] at h; cases h
    | some se =>
      rw [corrAssign_cons_some rest hse] at h
      cases hrec : corrAssign spanEnds rest (if e = se then idx + 1 else idx) with
      | error err => rw [hrec, exc_map_error] at h; cases h
      | ok tail =>
        rw [hrec, exc_map_ok] at h
        cases h
        obtain ⟨hlen, hchain, hlb, hclose⟩ := ih _ _ hrec
        have hidx_le : idx ≤ (if e = se then idx + 1 else idx) := by
          split_ifs <;> omega
        refine ⟨by simp [hlen], ?_, ?_, ?_⟩
        · rw [List.chain'_cons']
          refine ⟨?_, hchain⟩
          intro y hy
          exact le_trans hidx_le (hlb y (List.mem_of_mem_head? hy))
        · intro j hj
          rcases List.mem_cons.1 hj with rfl | hj
          · exact Nat.le_refl _
          · exact le_trans hidx_le (hlb j hj)
        · intro j hj k hk1 hk2
          rcases List.mem_cons.1 hj with rfl | hj
          · have hkj : k = j := le_antisymm hk2 hk1
            rw [hkj]
            exact List.mem_cons_self _ _
          · by_cases hkidx : k = idx
            · rw [hkidx]; exact List.mem_cons_self _ _
            · have hk1' : (if e = se then idx + 1 else idx) ≤ k := by
                split_ifs <;> omega
              exact List.mem_cons_of_mem _ (hclose j hj k hk1' hk2)

/-- Claim C8: when the alignment pass succeeds on a document, the attached
correspondence assigns every non-structural sub-word index (one list entry
per entry of `offsets[1:-1]`, so each sub-word lands in exactly one
bucket) a corpus-token bucket; bucket indices are non-decreasing along the
sub-word order, and they are downward closed from 0 — so the buckets
appearing are exactly `0..max`, each non-empty, in non-decreasing order. -/
theorem C8_alignment_coverage (offsets : List (Nat × Nat)) (d d2 : Document)
    (h : add_context_embs_doc offsets d = .ok d2) :
    ∃ assign, d2.context_corr = some assign ∧
      assign.length = ((offsets.drop 1).dropLast).length ∧
      List.Chain' (· ≤ ·) assign ∧
      (∀ j ∈ assign, ∀ k, k ≤ j → k ∈ assign) := by
  cases htxt : d.text with
  | none =>
    unfold add_context_embs_doc at h
    rw [htxt] at h
    cases h
  | some txt =>
    rw [add_context_embs_doc_some offsets d txt htxt] at h
    cases hsp : find_token_spans d.tree.tokens txt.data 0 with
    | error err => rw [hsp, exc_bind_error] at h; cases h
    | ok spans =>
      rw [hsp, exc_bind_ok] at h
      cases hca : corrAssign (spans.map Prod.snd)
          (((offsets.drop 1).dropLast).map Prod.snd) 0 with
      | error err => rw [hca, exc_bind_error] at h; cases h
      | ok assign =>
        rw [hca, exc_bind_ok] at h
        cases h
        obtain ⟨hlen, hchain, _, hclose⟩ := corrAssign_spec _ _ _ _ hca
        refine ⟨assign, rfl, ?_, hchain, ?_⟩
        · rw [hlen, List.length_map]
        · intro j hj k hk
          exact hclose j hj k (Nat.zero_le k) hk

/-- Witness for C8 at the concrete aligned document. -/
theorem C8_alignment_coverage_witness :
    ∃ assign, okAlignedDoc.context_corr = some assign ∧
      assign.length = ((okAlignOffsets.drop 1).dropLast).length ∧
      List.Chain' (· ≤ ·) assign ∧
      (∀ j ∈ assign, ∀ k, k ≤ j → k ∈ assign) :=
  C8_alignment_coverage okAlignOffsets okAlignDoc okAlignedDoc (by decide)

/-! ## Claim C9 -/

theorem tensorizeDoc_def (tv cv mv : List String) (d : Document) :
    tensorizeDoc tv cv mv d
      = (morphTagsTensor mv d).bind fun m =>
          .ok { d with chars_tensor := some (charsTensor cv d)
                       tokens_tensor := some (tokensTensor tv d)
                       morph_tags_tensor := some m } := rfl

theorem tensorizeDoc_shape {tv cv mv : List String} {d d2 : Document}
    (h : tensorizeDoc tv cv mv d = .ok d2) :
    d2.tree = d.tree ∧
    d2.chars_tensor = some (charsTensor cv d) ∧
    d2.tokens_tensor = some (tokensTensor tv d) ∧
    ∃ m, d2.morph_tags_tensor = some m ∧ morphTagsTensor mv d = .ok m := by
  rw [tensorizeDoc_def] at h
  cases hm : morphTagsTensor mv d with
  | error e => rw [hm, exc_bind_error] at h; cases h
  | ok m =>
    rw [hm, exc_bind_ok] at h
    cases h
    exact ⟨rfl, rfl, rfl, m, rfl, rfl⟩

theorem forall2_tensorize_trees {tv cv mv : List String}
    {docs docs2 : List Document}
    (h : List.Forall₂ (fun a b => tensorizeDoc tv cv mv a = .ok b) docs docs2) :
    docs2.map (fun d => d.tree) = docs.map (fun d => d.tree) := by
  induction h with
  | nil => rfl
  | cons hR hF ih => simp only [List.map_cons, (tensorizeDoc_shape hR).1, ih]

theorem tree_map_congr {docs docs2 : List Document}
    (h : docs2.map (fun d => d.tree) = docs.map (fun d => d.tree))
    (f : Tree → α) :
    docs2.map (fun d => f d.tree) = docs.map (fun d => f d.tree) := by
  have h2 := congrArg (List.map f) h
  simpa [List.map_map, Function.comp] using h2

theorem docTokens_congr {docs docs2 : List Document}
    (h : docs2.map (fun d => d.tree) = docs.map (fun d => d.tree)) :
    docTokens docs2 = docTokens docs := by
  unfold docTokens
  exact congrArg List.flatten (tree_map_congr h fun t => t.tokens)

theorem buildVocabs_congr {docs docs2 : List Document}
    (h : docs2.map (fun d => d.tree) = docs.map (fun d => d.tree)) :
    buildTokenVocab docs2 = buildTokenVocab docs ∧
    buildCharVocab docs2 = buildCharVocab docs ∧
    buildMorphTagVocab docs2 = buildMorphTagVocab docs := by
  refine ⟨?_, ?_, ?_⟩
  · unfold buildTokenVocab
    rw [docTokens_congr h]
  · unfold buildCharVocab
    rw [docTokens_congr h]
  · unfold buildMorphTagVocab
    rw [tree_map_congr h fun t => t.morph_tags]

theorem charsTensor_congr {cv : List String} {d d2 : Document}
    (h : d2.tree = d.tree) : charsTensor cv d2 = charsTensor cv d := by
  unfold charsTensor
  rw [h]

theorem tokensTensor_congr {tv : List String} {d d2 : Document}
    (h : d2.tree = d.tree) : tokensTensor tv d2 = tokensTensor tv d := by
  unfold tokensTensor
  rw [h]

theorem morphTagsTensor_congr {mv : List String} {d d2 : Document}
    (h : d2.tree = d.tree) : morphTagsTensor mv d2 = morphTagsTensor mv d := by
  rw [morphTagsTensor_def, morphTagsTensor_def, h]

theorem parse_tree_file_def (c : DocumentCorpus) (lines : List String) :
    parse_tree_file c lines
      = (parseLinesFrom ⟨c.docs, Document.empty⟩ lines).bind fun st =>
          (moveToPt (buildTokenVocab (st.docs ++ [st.cur]))
              (buildCharVocab (st.docs ++ [st.cur]))
              (buildMorphTagVocab (st.docs ++ [st.cur]))
              (st.docs ++ [st.cur])).bind fun docs2 =>
            .ok { c with
                  docs := docs2
                  token_vocab := some (buildTokenVocab (st.docs ++ [st.cur]))
                  char_vocab := some (buildCharVocab (st.docs ++ [st.cur]))
                  morph_tag_vocab := some (buildMorphTagVocab (st.docs ++ [st.cur])) } :=
  rfl

/-- Claim C9: whenever `parse_tree_file` returns, the new documents have
been appended to the corpus, the three vocabularies stored on the corpus
are exactly the ones built from the full current document set, and every
document — old and new — carries tensors computed from its own symbolic
fields under those stored vocabularies. -/
theorem C9_vocab_rebuild_and_retensorize (c c2 : DocumentCorpus)
    (lines : List String) (h : parse_tree_file c lines = .ok c2) :
    (∃ newDocs, parseDocs lines = .ok newDocs ∧
        c2.docs.length = c.docs.length + newDocs.length) ∧
    c2.token_vocab = some (buildTokenVocab c2.docs) ∧
    c2.char_vocab = some (buildCharVocab c2.docs) ∧
    c2.morph_tag_vocab = some (buildMorphTagVocab c2.docs) ∧
    ∀ d ∈ c2.docs, ∃ tv cv mv,
      c2.token_vocab = some tv ∧ c2.char_vocab = some cv ∧
      c2.morph_tag_vocab = some mv ∧
      d.chars_tensor = some (charsTensor cv d) ∧
      d.tokens_tensor = some (tokensTensor tv d) ∧
      ∃ m, d.morph_tags_tensor = some m ∧ morphTagsTensor mv d = .ok m := by
  rw [parse_tree_file_def] at h
  cases hfold : parseLinesFrom ⟨c.docs, Document.empty⟩ lines with
  | error e => rw [hfold, exc_bind_error] at h; cases h
  | ok st =>
    rw [hfold, exc_bind_ok] at h
    cases hmv : moveToPt (buildTokenVocab (st.docs ++ [st.cur]))
        (buildCharVocab (st.docs ++ [st.cur]))
        (buildMorphTagVocab (st.docs ++ [st.cur])) (st.docs ++ [st.cur]) with
    | error e => rw [hmv, exc_bind_error] at h; cases h
    | ok docs2 =>
      rw [hmv, exc_bind_ok] at h
      cases h
      have hf := mapExcept_ok_forall2 hmv
      have htrees := forall2_tensorize_trees hf
      obtain ⟨hv1, hv2, hv3⟩ := buildVocabs_congr htrees
      refine ⟨?_, ?_, ?_, ?_, ?_⟩
      · rw [parseDocs_def]
        cases hbase : parseLinesFrom ⟨[], Document.empty⟩ lines with
        | error e =>
          rw [parseLinesFrom_shift, hbase, exc_map_error] at hfold
          cases hfold
        | ok s0 =>
          rw [parseLinesFrom_shift, hbase, exc_map_ok] at hfold
          cases hfold
          refine ⟨s0.docs ++ [s0.cur], rfl, ?_⟩
          have hlen := hf.length_eq
          simp only [List.length_append] at hlen ⊢
          omega
      · simp only [hv1]
      · simp only [hv2]
      · simp only [hv3]
      · intro d hd
        rcases forall2_mem_right hf hd with ⟨a, _, ha⟩
        obtain ⟨htree, hchars, htoks, m, hmt, hmteq⟩ := tensorizeDoc_shape ha
        refine ⟨buildTokenVocab (st.docs ++ [st.cur]),
          buildCharVocab (st.docs ++ [st.cur]),
          buildMorphTagVocab (st.docs ++ [st.cur]), rfl, rfl, rfl, ?_, ?_, m, hmt, ?_⟩
        · rw [hchars, charsTensor_congr htree]
        · rw [htoks, tokensTensor_congr htree]
        · rw [morphTagsTensor_congr htree, hmteq]

/-- Witness for C9 on a fresh corpus and the one-row file `c9lines`. -/
theorem C9_vocab_rebuild_and_retensorize_witness :
    (∃ newDocs, parseDocs c9lines = .ok newDocs ∧
        c9res.docs.length = ({} : DocumentCorpus).docs.length + newDocs.length) ∧
    c9res.token_vocab = some (buildTokenVocab c9res.docs) ∧
    c9res.char_vocab = some (buildCharVocab c9res.docs) ∧
    c9res.morph_tag_vocab = some (buildMorphTagVocab c9res.docs) ∧
    ∀ d ∈ c9res.docs, ∃ tv cv mv,
      c9res.token_vocab = some tv ∧ c9res.char_vocab = some cv ∧
      c9res.morph_tag_vocab = some mv ∧
      d.chars_tensor = some (charsTensor cv d) ∧
      d.tokens_tensor = some (tokensTensor tv d) ∧
      ∃ m, d.morph_tags_tensor = some m ∧ morphTagsTensor mv d = .ok m :=
  C9_vocab_rebuild_and_retensorize {} c9res c9lines (by decide)

end MorphTag
